import Mathlib

/-!
# Verification of the granny-smith development HTTP server

Shallow embedding of `scripts/dev_server.py` and `tests/e2e/test_server.py`.
The servers are thin wrappers over Python's `http.server` machinery; the
embedding models the request-handler overrides (`end_headers`, `do_GET`,
`translate_path`), the relevant parts of the standard-library helpers they
call (`SimpleHTTPRequestHandler.translate_path`, `urllib.parse.urlparse`,
`urllib.parse.unquote`, `posixpath.normpath`, `os.path.join`), and the two
`main` entry points.

Strings are handled through their character lists; every definition is
executable.  Filesystem state is abstracted as a predicate
`String → Bool` telling whether a path exists (the code only ever calls
`os.path.exists` / `os.path.isdir`).
-/

namespace GrannySmith

/-! ## Character-list primitives mirroring the Python string operations -/

/-- Membership test `containsL c l`, mirroring Python's `c in s`. -/
def containsL (c : Char) : List Char → Bool
  | [] => false
  | x :: xs => x = c || containsL c xs

/-- Everything after the first occurrence of `c`; mirrors
`s.split(c, 1)[1]` (empty when `c` is absent). -/
def afterFirstL (c : Char) : List Char → List Char
  | [] => []
  | x :: xs => if x = c then xs else afterFirstL c xs

/-- Everything before the first occurrence of `c`; mirrors
`s.split(c, 1)[0]`. -/
def takeUntil (c : Char) : List Char → List Char
  | [] => []
  | x :: xs => if x = c then [] else x :: takeUntil c xs

/-- Mirrors Python's `s.startswith(p)` (arguments: string, then the tested
head). -/
def startsWithL : List Char → List Char → Bool
  | _, [] => true
  | [], _ :: _ => false
  | x :: xs, y :: ys => x = y && startsWithL xs ys

/-- Characters Python's `str.strip()` family removes: the full set of
code points with `str.isspace() = True` (ASCII controls 09–0D, the C1
separators 1C–1F, space, NEL, NBSP, and the Unicode space separators). -/
def isPyWs (c : Char) : Bool :=
  let n := c.toNat
  (0x09 ≤ n && n ≤ 0x0d) || (0x1c ≤ n && n ≤ 0x1f) || n = 0x20 || n = 0x85 ||
    n = 0xa0 || n = 0x1680 || (0x2000 ≤ n && n ≤ 0x200a) || n = 0x2028 ||
    n = 0x2029 || n = 0x202f || n = 0x205f || n = 0x3000

/-- Mirrors Python's `s.rstrip()`. -/
def rstripWs (l : List Char) : List Char :=
  (l.reverse.dropWhile isPyWs).reverse

/-- Mirrors Python's `s.endswith('/')`. -/
def lastIsSlash (l : List Char) : Bool :=
  match l.getLast? with
  | some '/' => true
  | _ => false

/-- Mirrors Python's `s.lstrip('/')`. -/
def lstripSlashes : List Char → List Char
  | [] => []
  | c :: rest => if c = '/' then lstripSlashes rest else c :: rest

/-- Split on a character; mirrors Python's `s.split(c)`. -/
def splitCh (c : Char) : List Char → List (List Char)
  | [] => [[]]
  | x :: xs =>
    if x = c then [] :: splitCh c xs
    else
      match splitCh c xs with
      | [] => [[x]]
      | y :: ys => (x :: y) :: ys

/-- Mirrors Python's `c.join(parts)`. -/
def joinCh (c : Char) : List (List Char) → List Char
  | [] => []
  | [p] => p
  | p :: ps => p ++ c :: joinCh c ps

/-- Value of a hexadecimal digit, as `urllib.parse.unquote` accepts them
(both cases). -/
def hexVal (c : Char) : Option Nat :=
  if '0' ≤ c ∧ c ≤ '9' then some (c.toNat - '0'.toNat)
  else if 'a' ≤ c ∧ c ≤ 'f' then some (c.toNat - 'a'.toNat + 10)
  else if 'A' ≤ c ∧ c ≤ 'F' then some (c.toNat - 'A'.toNat + 10)
  else none

/-- Tokenisation step of `urllib.parse.unquote`: each valid `%XX` escape
and each ASCII character contributes one byte; a non-ASCII character of
the (latin-1 decoded) request string passes through as a character and
separates the byte runs, exactly as `unquote` percent-decodes only the
maximal ASCII runs of its input.  An invalid escape contributes the
bytes of its own characters. -/
def pctTokens : List Char → List (Nat ⊕ Char)
  | [] => []
  | '%' :: a :: b :: rest =>
    match hexVal a, hexVal b with
    | some x, some y => Sum.inl (16 * x + y) :: pctTokens rest
    | _, _ => Sum.inl 0x25 :: pctTokens (a :: b :: rest)
  | c :: rest =>
    (if c.toNat < 0x80 then Sum.inl c.toNat else Sum.inr c) :: pctTokens rest

/-- The replacement character U+FFFD. -/
def repl : Char := Char.ofNat 0xfffd

/-- Whether a byte is a valid UTF-8 continuation byte. -/
def isCont (b : Nat) : Bool := 0x80 ≤ b && b ≤ 0xbf

/-- Valid range of the second byte of a UTF-8 sequence with lead byte
`b` (strict decoding: overlong forms, surrogates and values above
U+10FFFF are rejected here, as CPython's codec rejects them). -/
def cont2Ok (b b2 : Nat) : Bool :=
  if b = 0xe0 then 0xa0 ≤ b2 && b2 ≤ 0xbf
  else if b = 0xed then 0x80 ≤ b2 && b2 ≤ 0x9f
  else if b = 0xf0 then 0x90 ≤ b2 && b2 ≤ 0xbf
  else if b = 0xf4 then 0x80 ≤ b2 && b2 ≤ 0x8f
  else isCont b2

/-- UTF-8 decoding of a token stream with the `replace` error handler:
a valid sequence of byte tokens becomes its code point, every maximal
invalid subpart becomes one U+FFFD, and character tokens pass through
(interrupting any pending sequence).  This mirrors
`bytes.decode('utf-8', 'replace')` as `unquote` applies it per ASCII
run.  The `fuel` argument only drives the recursion: every step
consumes at least one token and spends one unit, so the wrapper below,
which supplies one unit per token, never exhausts it. -/
def utf8ReplaceF : Nat → List (Nat ⊕ Char) → List Char
  | _, [] => []
  | 0, _ :: _ => []
  | n + 1, Sum.inr c :: rest => c :: utf8ReplaceF n rest
  | n + 1, Sum.inl b :: rest =>
    if b < 0x80 then Char.ofNat b :: utf8ReplaceF n rest
    else if 0xc2 ≤ b && b ≤ 0xdf then
      match rest with
      | Sum.inl b2 :: rest2 =>
        if isCont b2 then
          Char.ofNat ((b - 0xc0) * 0x40 + (b2 - 0x80)) :: utf8ReplaceF n rest2
        else repl :: utf8ReplaceF n (Sum.inl b2 :: rest2)
      | _ => repl :: utf8ReplaceF n rest
    else if 0xe0 ≤ b && b ≤ 0xef then
      match rest with
      | Sum.inl b2 :: rest2 =>
        if cont2Ok b b2 then
          match rest2 with
          | Sum.inl b3 :: rest3 =>
            if isCont b3 then
              Char.ofNat ((b - 0xe0) * 0x1000 + (b2 - 0x80) * 0x40 + (b3 - 0x80))
                :: utf8ReplaceF n rest3
            else repl :: utf8ReplaceF n (Sum.inl b3 :: rest3)
          | rest2' => repl :: utf8ReplaceF n rest2'
        else repl :: utf8ReplaceF n (Sum.inl b2 :: rest2)
      | _ => repl :: utf8ReplaceF n rest
    else if 0xf0 ≤ b && b ≤ 0xf4 then
      match rest with
      | Sum.inl b2 :: rest2 =>
        if cont2Ok b b2 then
          match rest2 with
          | Sum.inl b3 :: rest3 =>
            if isCont b3 then
              match rest3 with
              | Sum.inl b4 :: rest4 =>
                if isCont b4 then
                  Char.ofNat ((b - 0xf0) * 0x40000 + (b2 - 0x80) * 0x1000 +
                    (b3 - 0x80) * 0x40 + (b4 - 0x80)) :: utf8ReplaceF n rest4
                else repl :: utf8ReplaceF n (Sum.inl b4 :: rest4)
              | rest3' => repl :: utf8ReplaceF n rest3'
            else repl :: utf8ReplaceF n (Sum.inl b3 :: rest3)
          | rest2' => repl :: utf8ReplaceF n rest2'
        else repl :: utf8ReplaceF n (Sum.inl b2 :: rest2)
      | _ => repl :: utf8ReplaceF n rest
    else repl :: utf8ReplaceF n rest

/-- UTF-8 `replace` decoding of a token stream (wrapper supplying the
recursion fuel). -/
def utf8ReplaceT (ts : List (Nat ⊕ Char)) : List Char :=
  utf8ReplaceF ts.length ts

/-- Mirrors `urllib.parse.unquote` with its default `errors='replace'`
(the call in `dev_server.py`): percent-decode the ASCII runs to bytes
and UTF-8-decode them with replacement.  The `translate_path` of
`http.server` first tries `errors='surrogatepass'` and falls back to
this; the two agree whenever the decoded text contains no U+FFFD
(surrogate escapes, not representable as Lean characters, are the only
difference), which the decoding theorem carries as a hypothesis. -/
def unquoteL (l : List Char) : List Char := utf8ReplaceT (pctTokens l)

/-- String wrapper for `unquoteL`, mirroring `urllib.parse.unquote`. -/
def unquote (s : String) : String := ⟨unquoteL s.toList⟩

/-! ## `urllib.parse.urlparse(path).path`

`translate_path` in `dev_server.py` computes
`urllib.parse.unquote(urllib.parse.urlparse(path).path)`.  For a request
target (which carries no scheme, since it starts with `/`), `urlparse`
removes tab/CR/LF characters, strips a `//netloc` part when the target
starts with `//`, cuts the string at the first `#` and then at the
first `?`, and finally drops the RFC 1808 parameters — a `;` and
everything after it in the last path segment. -/

/-- Mirrors `_splitnetloc`: drop characters up to the first `/`, `?` or `#`
(the delimiter itself is kept). -/
def splitnetloc : List Char → List Char
  | [] => []
  | c :: rest => if c = '/' ∨ c = '?' ∨ c = '#' then c :: rest else splitnetloc rest

/-- The unsafe bytes `urlsplit` removes before parsing. -/
def isUrlUnsafe (c : Char) : Bool :=
  c = '\t' || c = '\x0d' || c = '\n'

/-- The part of a path after its last `/` (all of it when there is no
`/`). -/
def lastSeg (l : List Char) : List Char :=
  (l.reverse.takeWhile (fun c => c != '/')).reverse

/-- The part of a path up to and including its last `/` (empty when
there is no `/`). -/
def beforeLastSeg (l : List Char) : List Char :=
  (l.reverse.dropWhile (fun c => c != '/')).reverse

/-- Mirrors `urllib.parse._splitparams`: drop the RFC 1808 parameters,
i.e. a `;` and everything after it, from the last path segment (from
the first `;` of the whole path when it has no `/`). -/
def splitparamsL (l : List Char) : List Char :=
  if containsL ';' l then
    if containsL '/' l then beforeLastSeg l ++ takeUntil ';' (lastSeg l)
    else takeUntil ';' l
  else l

/-- The `path` component `urllib.parse.urlparse` extracts from a request
target. -/
def urlPathL (l : List Char) : List Char :=
  let l := l.filter (fun c => !isUrlUnsafe c)
  let l := if startsWithL l ['/', '/'] then splitnetloc (l.drop 2) else l
  splitparamsL (takeUntil '?' (takeUntil '#' l))

/-! ## `posixpath.normpath` -/

/-- The component loop of `posixpath.normpath`: skip empty and `.`
components, push ordinary components, let `..` pop unless the stack is
empty (where it is kept for relative paths and dropped at an absolute
root) or already topped by `..`.  The stack `acc` is kept reversed. -/
def npLoop (absRoot : Bool) : List (List Char) → List (List Char) → List (List Char)
  | acc, [] => acc.reverse
  | acc, comp :: rest =>
    if comp = [] ∨ comp = ['.'] then npLoop absRoot acc rest
    else if comp ≠ ['.', '.'] ∨ (¬ absRoot ∧ acc = []) ∨ acc.head? = some ['.', '.'] then
      npLoop absRoot (comp :: acc) rest
    else
      match acc with
      | [] => npLoop absRoot [] rest
      | _ :: t => npLoop absRoot t rest

/-- Mirrors `posixpath.normpath`. -/
def normpath (l : List Char) : List Char :=
  if l = [] then ['.']
  else
    let initialSlashes : Nat :=
      if startsWithL l ['/'] then
        if startsWithL l ['/', '/'] ∧ ¬ startsWithL l ['/', '/', '/'] then 2 else 1
      else 0
    let newComps := npLoop (initialSlashes ≠ 0) [] (splitCh '/' l)
    let out := List.replicate initialSlashes '/' ++ joinCh '/' newComps
    if out = [] then ['.'] else out

/-- Mirrors `posixpath.join` on two components (the only arity the
sources use). -/
def osJoinL (a b : List Char) : List Char :=
  if startsWithL b ['/'] then b
  else if a = [] ∨ lastIsSlash a then a ++ b
  else a ++ '/' :: b

/-- String wrapper for `osJoinL`, mirroring `os.path.join`. -/
def osJoin (a b : String) : String := ⟨osJoinL a.toList b.toList⟩

/-! ## `SimpleHTTPRequestHandler.translate_path` and the override -/

/-- Mirrors `http.server.SimpleHTTPRequestHandler.translate_path` with
`self.directory = directory`: cut the target at `?` and `#`, remember
whether it ends (after `rstrip`) in a slash, percent-decode, normalise,
and join the remaining simple components onto the serving directory. -/
def baseTranslatePathL (directory path : List Char) : List Char :=
  let p := takeUntil '#' (takeUntil '?' path)
  let trailingSlash := lastIsSlash (rstripWs p)
  let p := normpath (unquoteL p)
  let words := (splitCh '/' p).filter (fun w => w ≠ [])
  let words := words.filter (fun w => ¬ (w = ['.'] ∨ w = ['.', '.']))
  let out := words.foldl (fun acc w => osJoinL acc w) directory
  if trailingSlash then out ++ ['/'] else out

/-- String wrapper for `baseTranslatePathL`. -/
def baseTranslatePath (directory path : String) : String :=
  ⟨baseTranslatePathL directory.toList path.toList⟩

/-- The candidate path under the fallback root that
`Handler.translate_path` builds:
`os.path.join(self.fallback_root, urllib.parse.unquote(urllib.parse.urlparse(path).path).lstrip('/'))`. -/
def fallbackPath (fallback_root path : String) : String :=
  ⟨osJoinL fallback_root.toList (lstripSlashes (unquoteL (urlPathL path.toList)))⟩

/-- Mirrors `Handler.translate_path` in `dev_server.py`.  `ex` abstracts
`os.path.exists`; `fallback_root = none` models the unset class
attribute (`main` only ever sets it to a truthy value). -/
def translate_path (ex : String → Bool) (fallback_root : Option String)
    (directory path : String) : String :=
  let primary := baseTranslatePath directory path
  match fallback_root with
  | none => primary
  | some fb =>
    if ex primary then primary
    else
      let fallback := fallbackPath fb path
      if ex fallback then fallback else primary

/-! ## `Handler.do_GET` (dev server) -/

/-- Python truthiness of the `Option String` class attributes
(`None` and `''` are falsy). -/
def truthy : Option String → Bool
  | none => false
  | some s => if s = "" then false else true

/-- Outcome of `Handler.do_GET`: either a redirect response
(`send_response(status)` plus a `Location` header) or delegation to
`SimpleHTTPRequestHandler.do_GET`. -/
inductive GetResponse where
  | redirect (status : Nat) (location : String)
  | delegate
  deriving DecidableEq, Repr

/-- Everything after the first `?`, mirroring `self.path.split('?', 1)[1]`. -/
def afterQuery (s : String) : String := ⟨afterFirstL '?' s.toList⟩

/-- Mirrors `'?' in self.path`. -/
def strContainsQuery (s : String) : Bool := containsL '?' s.toList

/-- Mirrors `self.path.startswith('/?')`. -/
def startsWithRootQuery (s : String) : Bool := startsWithL s.toList ['/', '?']

/-- Mirrors `Handler.do_GET` in `dev_server.py`: requests for `/` or
`/?...` are answered with a 302 redirect to `/index.html`, keeping the
query string when one is present, else injecting `default_params` when
set; every other request is delegated to the base class. -/
def do_GET (default_params : Option String) (path : String) : GetResponse :=
  if path = "/" || startsWithRootQuery path then
    let qs :=
      if strContainsQuery path then "?" ++ afterQuery path
      else if truthy default_params then "?" ++ default_params.getD ""
      else ""
    GetResponse.redirect 302 ("/index.html" ++ qs)
  else GetResponse.delegate

/-! ## Header emission -/

/-- A response header: name and value. -/
abbrev Header := String × String

/-- The three cache-suppression headers `Handler.end_headers` in
`dev_server.py` sends before flushing. -/
def cacheHeaders : List Header :=
  [("Cache-Control", "no-cache, no-store, must-revalidate, max-age=0"),
   ("Pragma", "no-cache"),
   ("Expires", "0")]

/-- Mirrors `Handler.end_headers` of the dev server: the buffered headers of the
response so far, followed by the three cache headers it appends before
`super().end_headers()` flushes the block. -/
def devEndHeaders (pending : List Header) : List Header :=
  pending ++ cacheHeaders

/-- Header block of a dev-server response to a GET request.  For the
root redirect the buffered header is the `Location` line; for delegated
requests `baseHeaders` stands for whatever
`SimpleHTTPRequestHandler` buffered (file headers, error headers, ...),
since every emission path ends in the overridden `end_headers`. -/
def devResponseHeaders (default_params : Option String)
    (baseHeaders : List Header) (path : String) : List Header :=
  match do_GET default_params path with
  | GetResponse.redirect _ loc => devEndHeaders [("Location", loc)]
  | GetResponse.delegate => devEndHeaders baseHeaders

/-- The two cross-origin-isolation headers `Handler.end_headers` in
`test_server.py` sends. -/
def coopHeaders : List Header :=
  [("Cross-Origin-Opener-Policy", "same-origin"),
   ("Cross-Origin-Embedder-Policy", "require-corp")]

/-- Mirrors `Handler.end_headers` of the test server. -/
def testEndHeaders (pending : List Header) : List Header :=
  pending ++ coopHeaders

/-- Headers `SimpleHTTPRequestHandler.send_head` buffers when it serves
a file: content type, length and modification time. -/
def sendHeadHeaders (ctype clen lastModified : String) : List Header :=
  [("Content-type", ctype), ("Content-Length", clen),
   ("Last-Modified", lastModified)]

/-- Headers `BaseHTTPRequestHandler.send_error` buffers for an error
response such as a 404. -/
def sendErrorHeaders (clen : String) : List Header :=
  [("Connection", "close"),
   ("Content-Type", "text/html;charset=utf-8"),
   ("Content-Length", clen)]

/-- Header block of a test-server response: the test server overrides
nothing but `end_headers`, so every response is a base-class response
flushed through `testEndHeaders`. -/
def testResponseHeaders (baseHeaders : List Header) : List Header :=
  testEndHeaders baseHeaders

/-! ## Entry points -/

/-- CLI options of `dev_server.py` with their `argparse` defaults. -/
structure DevArgs where
  root : String := "build"
  port : Nat := 8080
  fallback_root : Option String := none
  default_params : Option String := none
  deriving Repr, DecidableEq

/-- The parsed options when every flag is omitted. -/
def devDefaults : DevArgs := {}

/-- CLI options of `test_server.py` with their `argparse` defaults. -/
structure TestArgs where
  root : String := "build"
  port : Nat := 18080
  deriving Repr, DecidableEq

/-- The parsed options when every flag is omitted. -/
def testDefaults : TestArgs := {}

/-- Observable configuration of a successfully started dev server:
the address handed to `HTTPServer`, the class attributes set on
`Handler`, and the `directory` passed to the handler factory. -/
structure DevServerStart where
  bindHost : String
  bindPort : Nat
  handlerFallbackRoot : Option String
  handlerDefaultParams : Option String
  serveDirectory : String
  deriving Repr, DecidableEq

/-- Exit code of the dev-server process under `dev_main`'s two outcomes:
`raise SystemExit(msg)` terminates Python with status 1, a normal run
ends with status 0. -/
def devExitCode : Except String DevServerStart → Nat
  | Except.error _ => 1
  | Except.ok _ => 0

/-- Mirrors `main` in `dev_server.py` up to the creation of the
`HTTPServer`.  `abspath` abstracts `os.path.abspath` and `isdir`
abstracts `os.path.isdir`.  The root check precedes the socket
creation, so an error value means no listener was ever constructed. -/
def dev_main (abspath : String → String) (isdir : String → Bool)
    (a : DevArgs) : Except String DevServerStart :=
  let root := abspath a.root
  if isdir root then
    Except.ok
      { bindHost := "localhost"
        bindPort := a.port
        handlerFallbackRoot :=
          if truthy a.fallback_root then a.fallback_root.map abspath else none
        handlerDefaultParams :=
          if truthy a.default_params then a.default_params else none
        serveDirectory := root }
  else
    Except.error ("Missing root '" ++ root ++ "'. Run make first.")

/-- Observable configuration of a started test server: the address
handed to `socketserver.TCPServer` and the working directory switched
to by `os.chdir`. -/
structure TestServerStart where
  bindHost : String
  bindPort : Nat
  workingDir : String
  deriving Repr, DecidableEq

/-- Mirrors `main` in `test_server.py`: `os.chdir(args.root)` then
`socketserver.TCPServer(('', args.port), Handler)`. -/
def test_main (a : TestArgs) : TestServerStart :=
  { bindHost := "", bindPort := a.port, workingDir := a.root }

/-- Whether a bind host designates the loopback interface only, under
Python socket semantics: `''` is `INADDR_ANY` (all interfaces), while
`'localhost'` and the loopback literals designate loopback.  (This is
the spec-side notion the binding claims compare against.) -/
def designatesLoopbackOnly (host : String) : Bool :=
  host = "localhost" || host = "127.0.0.1" || host = "::1"

/-! ## Helper lemmas -/

theorem string_eq_of_data (a b : String) (h : a.data = b.data) : a = b := by
  cases a; cases b; simp_all

theorem startsWithL_cons₂ (q : List Char) :
    startsWithL ('/' :: '?' :: q) ['/', '?'] = true := by
  simp [startsWithL]

theorem containsL_cons (c x : Char) (xs : List Char) :
    containsL c (x :: xs) = (x = c || containsL c xs) := rfl

theorem afterFirstL_cons₂ (q : List Char) :
    afterFirstL '?' ('/' :: '?' :: q) = q := by
  simp [afterFirstL]

/-! ## C2, C3, C10: the root redirect -/

/-- C2: every GET request whose path begins with `/?` is answered with a
302 redirect whose `Location` is `/index.html` followed by the original
query string verbatim, including the `?`.  (A path equal to `/` carries
no query string, so the paths with a query string are exactly the
`"/?" ++ q`.) -/
theorem c2_root_redirect_preserves_query (dp : Option String) (q : String) :
    do_GET dp ("/?" ++ q) = GetResponse.redirect 302 ("/index.html?" ++ q) := by
  have hl : ("/?" ++ q).toList = '/' :: '?' :: q.toList := by
    show ("/?" ++ q).data = '/' :: '?' :: q.data
    rw [String.data_append]; rfl
  have hsw : startsWithRootQuery ("/?" ++ q) = true := by
    rw [startsWithRootQuery, hl]; exact startsWithL_cons₂ _
  have hc : strContainsQuery ("/?" ++ q) = true := by
    rw [strContainsQuery, hl, containsL_cons]; simp [containsL_cons]
  have ha : afterQuery ("/?" ++ q) = q := by
    rw [afterQuery, hl, afterFirstL_cons₂]
    rfl
  have hs : ("/index.html" ++ ("?" ++ q)) = ("/index.html?" ++ q) := rfl
  rw [do_GET, hsw, hc, ha]
  simp [hs]

/-- C3: a request for `/` with no query string redirects to
`/index.html?` followed by `default_params` when a default query string
is configured (`main` only installs non-empty ones), and to a bare
`/index.html` when none is configured. -/
theorem c3_root_redirect_default_params (d : String) (hd : d ≠ "") :
    do_GET (some d) "/" = GetResponse.redirect 302 ("/index.html?" ++ d) ∧
    do_GET none "/" = GetResponse.redirect 302 "/index.html" := by
  constructor
  · have ht : truthy (some d) = true := by rw [truthy, if_neg hd]
    have hc : strContainsQuery "/" = false := by decide
    have hcond : (decide (("/" : String) = "/") || startsWithRootQuery "/") = true := by
      decide
    have hs : ("/index.html" ++ ("?" ++ d)) = ("/index.html?" ++ d) := rfl
    simp [do_GET, hcond, hc, ht, hs]
  · decide

/-- Witness for C3 at `default_params = "a=1&b=2"`. -/
theorem c3_root_redirect_default_params_witness :
    do_GET (some "a=1&b=2") "/" = GetResponse.redirect 302 "/index.html?a=1&b=2" ∧
    do_GET none "/" = GetResponse.redirect 302 "/index.html" := by
  have h := c3_root_redirect_default_params "a=1&b=2" (by decide)
  exact ⟨h.1.trans (by decide), h.2⟩

/-- C10: for the path `/?` (empty query string) the query string counts
as present: the redirect target is `/index.html?`, and the configured
default parameters are not injected. -/
theorem c10_empty_query_preserved (dp : Option String) :
    do_GET dp "/?" = GetResponse.redirect 302 "/index.html?" := rfl

/-! ## C4: cache-suppression headers on every dev-server response -/

/-- C4: every dev-server response — the root redirect as well as any
delegated response, whatever headers the base class buffered — carries
the three cache-suppression headers. -/
theorem c4_cache_headers_on_every_response (dp : Option String)
    (baseHeaders : List Header) (path : String) :
    ("Cache-Control", "no-cache, no-store, must-revalidate, max-age=0")
        ∈ devResponseHeaders dp baseHeaders path ∧
    ("Pragma", "no-cache") ∈ devResponseHeaders dp baseHeaders path ∧
    ("Expires", "0") ∈ devResponseHeaders dp baseHeaders path := by
  rw [devResponseHeaders]
  cases do_GET dp path <;>
    simp [devEndHeaders, cacheHeaders]

/-! ## C9: configuration defaults -/

/-- C9: with every CLI flag omitted the dev server serves `build` on
port 8080 with no fallback root and no default parameters, and the test
server serves `build` on port 18080. -/
theorem c9_cli_defaults :
    devDefaults.root = "build" ∧ devDefaults.port = 8080 ∧
    devDefaults.fallback_root = none ∧ devDefaults.default_params = none ∧
    testDefaults.root = "build" ∧ testDefaults.port = 18080 := by
  refine ⟨rfl, rfl, rfl, rfl, rfl, rfl⟩

/-! ## C8: test-server headers -/

/-- C8: every test-server response — whether a served file (`send_head`
headers) or an error response (`send_error` headers), for any header
values — carries the two cross-origin-isolation headers and none of the
three cache-suppression header names of the primary variant. -/
theorem c8_test_server_headers (ct clen lm elen : String) :
    (("Cross-Origin-Opener-Policy", "same-origin")
        ∈ testResponseHeaders (sendHeadHeaders ct clen lm) ∧
     ("Cross-Origin-Embedder-Policy", "require-corp")
        ∈ testResponseHeaders (sendHeadHeaders ct clen lm) ∧
     ("Cross-Origin-Opener-Policy", "same-origin")
        ∈ testResponseHeaders (sendErrorHeaders elen) ∧
     ("Cross-Origin-Embedder-Policy", "require-corp")
        ∈ testResponseHeaders (sendErrorHeaders elen)) ∧
    ("Cache-Control" ∉ (testResponseHeaders (sendHeadHeaders ct clen lm)).map Prod.fst ∧
     "Pragma" ∉ (testResponseHeaders (sendHeadHeaders ct clen lm)).map Prod.fst ∧
     "Expires" ∉ (testResponseHeaders (sendHeadHeaders ct clen lm)).map Prod.fst ∧
     "Cache-Control" ∉ (testResponseHeaders (sendErrorHeaders elen)).map Prod.fst ∧
     "Pragma" ∉ (testResponseHeaders (sendErrorHeaders elen)).map Prod.fst ∧
     "Expires" ∉ (testResponseHeaders (sendErrorHeaders elen)).map Prod.fst) := by
  simp [testResponseHeaders, testEndHeaders, sendHeadHeaders, sendErrorHeaders,
    coopHeaders]

/-! ## C5: root validation before binding -/

/-- C5: when the resolved root is not a directory, `main` raises
`SystemExit` with a message naming the missing path (exit status 1,
hence non-zero) and never constructs the `HTTPServer`; when it is a
directory, the check passes and the listener is created (exit path 0). -/
theorem c5_root_check_before_bind (abspath : String → String)
    (isdir : String → Bool) (a : DevArgs) :
    (isdir (abspath a.root) = false →
      dev_main abspath isdir a =
        Except.error ("Missing root '" ++ abspath a.root ++ "'. Run make first.") ∧
      devExitCode (dev_main abspath isdir a) = 1) ∧
    (isdir (abspath a.root) = true →
      ∃ s, dev_main abspath isdir a = Except.ok s ∧
        devExitCode (dev_main abspath isdir a) = 0 ∧
        s.serveDirectory = abspath a.root ∧ s.bindPort = a.port) := by
  constructor
  · intro h
    simp [dev_main, h, devExitCode]
  · intro h
    refine ⟨{ bindHost := "localhost", bindPort := a.port,
              handlerFallbackRoot :=
                if truthy a.fallback_root then a.fallback_root.map abspath else none,
              handlerDefaultParams :=
                if truthy a.default_params then a.default_params else none,
              serveDirectory := abspath a.root }, ?_, ?_, ?_, ?_⟩ <;>
      simp [dev_main, h, devExitCode]

/-- Witness for C5: a root that is never a directory aborts with the
error message, a root that is one yields a started server. -/
theorem c5_root_check_before_bind_witness :
    (dev_main id (fun _ => false) devDefaults =
      Except.error "Missing root 'build'. Run make first." ∧
     devExitCode (dev_main id (fun _ => false) devDefaults) = 1) ∧
    (∃ s, dev_main id (fun _ => true) devDefaults = Except.ok s ∧
      devExitCode (dev_main id (fun _ => true) devDefaults) = 0 ∧
      s.serveDirectory = id "build" ∧ s.bindPort = devDefaults.port) := by
  have h1 := (c5_root_check_before_bind id (fun _ => false) devDefaults).1 rfl
  have h2 := (c5_root_check_before_bind id (fun _ => true) devDefaults).2 rfl
  exact ⟨⟨h1.1.trans (congrArg Except.error (by decide)), h1.2⟩, h2⟩

/-! ## C1: fallback path resolution -/

/-- C1: with a fallback root configured, `translate_path` returns the
primary resolution when it exists on disk; otherwise the fallback
candidate when that exists; otherwise the primary resolution again
(which then produces the standard not-found handling). -/
theorem c1_translate_path_fallback (ex : String → Bool) (fb root path : String) :
    (ex (baseTranslatePath root path) = true →
      translate_path ex (some fb) root path = baseTranslatePath root path) ∧
    (ex (baseTranslatePath root path) = false →
      ex (fallbackPath fb path) = true →
      translate_path ex (some fb) root path = fallbackPath fb path) ∧
    (ex (baseTranslatePath root path) = false →
      ex (fallbackPath fb path) = false →
      translate_path ex (some fb) root path = baseTranslatePath root path) := by
  refine ⟨fun h1 => ?_, fun h1 h2 => ?_, fun h1 h2 => ?_⟩
  · simp [translate_path, h1]
  · simp [translate_path, h1, h2]
  · simp [translate_path, h1, h2]

/-- Witness for C1: `/x.js` exists only under the fallback root `/B`,
so it is served from `/B/x.js`. -/
theorem c1_translate_path_fallback_witness :
    translate_path (fun s => s == "/B/x.js") (some "/B") "/A" "/x.js" = "/B/x.js" := by
  have h := (c1_translate_path_fallback (fun s => s == "/B/x.js") "/B" "/A" "/x.js").2.1
    (by decide) (by decide)
  exact h.trans (by decide)

/-! ## C7: bind addresses of the two variants -/

/-- C7 counterexample: the test-server variant hands the address `''`
to `socketserver.TCPServer`, and `''` is `INADDR_ANY` — all interfaces,
not loopback only — refuting the claim that both variants bind loopback
only. -/
theorem c7_counterexample_test_binds_all_interfaces :
    (test_main testDefaults).bindHost = "" ∧
    designatesLoopbackOnly (test_main testDefaults).bindHost = false := by
  exact ⟨rfl, rfl⟩

/-- C7 amended: the primary variant binds `('localhost', port)` — the
loopback interface at the configured port — while the test variant
binds `('', port)`, i.e. all interfaces at the configured port. -/
theorem c7_amended_bind_addresses (abspath : String → String)
    (isdir : String → Bool) (a : DevArgs) (t : TestArgs) (s : DevServerStart) :
    (dev_main abspath isdir a = Except.ok s →
      s.bindHost = "localhost" ∧ designatesLoopbackOnly s.bindHost = true ∧
      s.bindPort = a.port) ∧
    ((test_main t).bindHost = "" ∧
      designatesLoopbackOnly (test_main t).bindHost = false ∧
      (test_main t).bindPort = t.port) := by
  constructor
  · intro h
    rw [dev_main] at h
    split at h
    · rw [Except.ok.injEq] at h
      subst h
      exact ⟨rfl, rfl, rfl⟩
    · exact absurd h (by simp)
  · exact ⟨rfl, rfl, rfl⟩

/-- Witness for the amended C7 at a concretely started dev server and
the default test server. -/
theorem c7_amended_bind_addresses_witness :
    ((DevServerStart.mk "localhost" 8080 none none "build").bindHost = "localhost" ∧
     designatesLoopbackOnly
        (DevServerStart.mk "localhost" 8080 none none "build").bindHost = true ∧
     (DevServerStart.mk "localhost" 8080 none none "build").bindPort =
        devDefaults.port) ∧
    ((test_main testDefaults).bindHost = "" ∧
     designatesLoopbackOnly (test_main testDefaults).bindHost = false ∧
     (test_main testDefaults).bindPort = testDefaults.port) := by
  have h := c7_amended_bind_addresses id (fun _ => true) devDefaults testDefaults
    (DevServerStart.mk "localhost" 8080 none none "build")
  exact ⟨h.1 rfl, h.2⟩

/-! ## Lemmas about the character-level primitives, used for C6 -/

theorem takeUntil_of_not_contains (c : Char) (l : List Char)
    (h : containsL c l = false) : takeUntil c l = l := by
  induction l with
  | nil => rfl
  | cons x xs ih =>
    rw [containsL_cons, Bool.or_eq_false_iff] at h
    rw [takeUntil, if_neg (by simpa using h.1), ih h.2]

theorem takeUntil_append (c : Char) (a b : List Char)
    (h : containsL c a = false) : takeUntil c (a ++ b) = a ++ takeUntil c b := by
  induction a with
  | nil => rfl
  | cons x xs ih =>
    rw [containsL_cons, Bool.or_eq_false_iff] at h
    rw [List.cons_append, takeUntil, if_neg (by simpa using h.1), ih h.2,
      List.cons_append]

theorem takeUntil_cons_self (c : Char) (r : List Char) :
    takeUntil c (c :: r) = [] := by
  rw [takeUntil, if_pos rfl]

theorem takeUntil_cons_ne (c x : Char) (r : List Char) (h : x ≠ c) :
    takeUntil c (x :: r) = x :: takeUntil c r := by
  rw [takeUntil, if_neg h]

theorem pctTokens_cons_ascii (c : Char) (l : List Char) (h1 : c ≠ '%')
    (h2 : c.toNat < 0x80) :
    pctTokens (c :: l) = Sum.inl c.toNat :: pctTokens l := by
  cases l with
  | nil => simp [pctTokens, h1, h2]
  | cons a t =>
    cases t with
    | nil => simp [pctTokens, h1, h2]
    | cons b r =>
      conv_lhs => rw [pctTokens.eq_def]
      simp [h1, h2]

theorem utf8ReplaceT_cons_ascii (n : Nat) (ts : List (Nat ⊕ Char))
    (h : n < 0x80) :
    utf8ReplaceT (Sum.inl n :: ts) = Char.ofNat n :: utf8ReplaceT ts := by
  rw [utf8ReplaceT, utf8ReplaceT, List.length_cons]
  conv_lhs => rw [utf8ReplaceF.eq_def]
  simp [h]

theorem unquoteL_cons_ascii (c : Char) (l : List Char) (h1 : c ≠ '%')
    (h2 : c.toNat < 0x80) :
    unquoteL (c :: l) = c :: unquoteL l := by
  rw [unquoteL, pctTokens_cons_ascii c l h1 h2, utf8ReplaceT_cons_ascii _ _ h2,
    Char.ofNat_toNat]
  rfl

theorem containsL_append (c : Char) (a b : List Char) :
    containsL c (a ++ b) = (containsL c a || containsL c b) := by
  induction a with
  | nil => rfl
  | cons x xs ih =>
    rw [List.cons_append, containsL_cons, ih, containsL_cons, Bool.or_assoc]

theorem ne_of_containsL_false (c : Char) (l : List Char)
    (h : containsL c l = false) : ∀ x ∈ l, x ≠ c := by
  induction l with
  | nil => intro x hx; cases hx
  | cons y ys ih =>
    rw [containsL_cons, Bool.or_eq_false_iff] at h
    intro x hx
    rcases List.mem_cons.mp hx with rfl | hx'
    · simpa using h.1
    · exact ih h.2 x hx'

theorem takeWhile_append_all (p : Char → Bool) (a b : List Char)
    (h : ∀ c ∈ a, p c = true) :
    (a ++ b).takeWhile p = a ++ b.takeWhile p := by
  induction a with
  | nil => rfl
  | cons x xs ih =>
    rw [List.cons_append, List.takeWhile_cons, h x (List.mem_cons_self x xs),
      ih (fun c hc => h c (List.mem_cons_of_mem x hc))]
    simp

theorem dropWhile_append_all (p : Char → Bool) (a b : List Char)
    (h : ∀ c ∈ a, p c = true) :
    (a ++ b).dropWhile p = b.dropWhile p := by
  induction a with
  | nil => rfl
  | cons x xs ih =>
    rw [List.cons_append, List.dropWhile_cons, h x (List.mem_cons_self x xs)]
    simp only [if_pos]
    exact ih (fun c hc => h c (List.mem_cons_of_mem x hc))

theorem lastSeg_cons_slash (t : List Char) (h : containsL '/' t = false) :
    lastSeg ('/' :: t) = t := by
  have hall : ∀ c ∈ t.reverse, (c != '/') = true := by
    intro c hc
    simpa using ne_of_containsL_false _ _ h c (List.mem_reverse.mp hc)
  rw [lastSeg, List.reverse_cons, takeWhile_append_all _ _ _ hall]
  simp [List.takeWhile_cons]

theorem beforeLastSeg_cons_slash (t : List Char) (h : containsL '/' t = false) :
    beforeLastSeg ('/' :: t) = ['/'] := by
  have hall : ∀ c ∈ t.reverse, (c != '/') = true := by
    intro c hc
    simpa using ne_of_containsL_false _ _ h c (List.mem_reverse.mp hc)
  rw [beforeLastSeg, List.reverse_cons, dropWhile_append_all _ _ _ hall]
  simp [List.dropWhile_cons]

theorem splitparamsL_no_semi (l : List Char) (h : containsL ';' l = false) :
    splitparamsL l = l := by
  rw [splitparamsL, if_neg (by simp [h])]

theorem splitparamsL_slash_params (n r : List Char)
    (hsemi : containsL ';' n = false) (hn : containsL '/' n = false)
    (hr : containsL '/' r = false) :
    splitparamsL ('/' :: (n ++ ';' :: r)) = '/' :: n := by
  have hc1 : containsL ';' ('/' :: (n ++ ';' :: r)) = true := by
    rw [containsL_cons, containsL_append, containsL_cons]
    simp
  have hc2 : containsL '/' ('/' :: (n ++ ';' :: r)) = true := by
    rw [containsL_cons]
    simp
  have hnr : containsL '/' (n ++ ';' :: r) = false := by
    rw [containsL_append, containsL_cons, hn, hr]
    rfl
  rw [splitparamsL, if_pos hc1, if_pos hc2, lastSeg_cons_slash _ hnr,
    beforeLastSeg_cons_slash _ hnr, takeUntil_append _ _ _ hsemi,
    takeUntil_cons_self, List.append_nil, List.singleton_append]

theorem splitCh_of_not_contains (c : Char) (l : List Char)
    (h : containsL c l = false) : splitCh c l = [l] := by
  induction l with
  | nil => rfl
  | cons x xs ih =>
    rw [containsL_cons, Bool.or_eq_false_iff] at h
    rw [splitCh, if_neg (by simpa using h.1), ih h.2]

theorem splitCh_cons_self (c : Char) (l : List Char) :
    splitCh c (c :: l) = [] :: splitCh c l := by
  rw [splitCh, if_pos rfl]

theorem startsWithL_single_of_not_contains (c : Char) (l r : List Char)
    (h : containsL c l = false) (hne : l ≠ []) :
    startsWithL (l ++ r) [c] = false := by
  cases l with
  | nil => exact absurd rfl hne
  | cons x xs =>
    rw [containsL_cons, Bool.or_eq_false_iff] at h
    simp [startsWithL, by simpa using h.1]

theorem dropWhile_eq_self_of (p : Char → Bool) (l : List Char)
    (h : ∀ c ∈ l, p c = false) : l.dropWhile p = l := by
  cases l with
  | nil => rfl
  | cons x xs => rw [List.dropWhile_cons, h x (by simp)]; simp

theorem rstripWs_eq_self (l : List Char) (h : ∀ c ∈ l, isPyWs c = false) :
    rstripWs l = l := by
  rw [rstripWs, dropWhile_eq_self_of _ _ (fun c hc => h c (List.mem_reverse.mp hc)),
    List.reverse_reverse]

theorem lastIsSlash_of_not_contains (l : List Char)
    (h : containsL '/' l = false) : lastIsSlash l = false := by
  induction l with
  | nil => rfl
  | cons x xs ih =>
    rw [containsL_cons, Bool.or_eq_false_iff] at h
    cases xs with
    | nil =>
      have hx : x ≠ '/' := by simpa using h.1
      simp [lastIsSlash, hx]
    | cons y ys =>
      rw [lastIsSlash, List.getLast?_cons_cons, ← lastIsSlash]
      exact ih h.2

theorem lastIsSlash_cons_cons (a b : Char) (l : List Char) :
    lastIsSlash (a :: b :: l) = lastIsSlash (b :: l) := by
  rw [lastIsSlash, List.getLast?_cons_cons, ← lastIsSlash]

theorem lstripSlashes_cons_slash (l : List Char) :
    lstripSlashes ('/' :: l) = lstripSlashes l := by
  rw [lstripSlashes, if_pos rfl]

theorem lstripSlashes_of_not_contains (l : List Char)
    (h : containsL '/' l = false) : lstripSlashes l = l := by
  cases l with
  | nil => rfl
  | cons x xs =>
    rw [containsL_cons, Bool.or_eq_false_iff] at h
    rw [lstripSlashes, if_neg (by simpa using h.1)]

theorem isPyWs_of_isUrlUnsafe (c : Char) (h : isUrlUnsafe c = true) :
    isPyWs c = true := by
  rw [isUrlUnsafe] at h
  rcases Bool.or_eq_true_iff.mp h with h' | h'
  · rcases Bool.or_eq_true_iff.mp h' with h'' | h'' <;>
      · rw [of_decide_eq_true h'']; rfl
  · rw [of_decide_eq_true h']; rfl

theorem filter_safe_eq_self (l : List Char) (h : ∀ c ∈ l, isPyWs c = false) :
    l.filter (fun c => !isUrlUnsafe c) = l := by
  refine List.filter_eq_self.mpr (fun c hc => ?_)
  have hws := h c hc
  cases hcu : isUrlUnsafe c with
  | false => rfl
  | true =>
    rw [isPyWs_of_isUrlUnsafe c hcu] at hws
    exact absurd hws (by simp)

theorem npLoop_nil (b : Bool) (acc : List (List Char)) :
    npLoop b acc [] = acc.reverse := rfl

theorem npLoop_empty_comp (b : Bool) (acc : List (List Char))
    (rest : List (List Char)) :
    npLoop b acc ([] :: rest) = npLoop b acc rest := by
  rw [npLoop.eq_def]
  simp

theorem npLoop_push (b : Bool) (acc rest : List (List Char)) (comp : List Char)
    (h1 : comp ≠ []) (h2 : comp ≠ ['.']) (h3 : comp ≠ ['.', '.']) :
    npLoop b acc (comp :: rest) = npLoop b (comp :: acc) rest := by
  rw [npLoop.eq_def]
  simp [h1, h2, h3]

/-- Applying `posixpath.normpath` to an absolute path of one ordinary component
leaves it unchanged. -/
theorem normpath_slash_single (d : List Char) (hdne : d ≠ [])
    (hds : containsL '/' d = false) (h1 : d ≠ ['.']) (h2 : d ≠ ['.', '.']) :
    normpath ('/' :: d) = '/' :: d := by
  obtain ⟨y, ys, rfl⟩ : ∃ y ys, d = y :: ys := by
    cases d with
    | nil => exact absurd rfl hdne
    | cons y ys => exact ⟨y, ys, rfl⟩
  have hall : containsL '/' (y :: ys) = false := hds
  rw [containsL_cons, Bool.or_eq_false_iff] at hds
  have hy : ¬ (y = '/') := by simpa using hds.1
  have hsw2 : startsWithL ('/' :: y :: ys) ['/', '/'] = false := by
    simp [startsWithL, hy]
  rw [normpath, if_neg (by simp)]
  have hinit :
      (if startsWithL ('/' :: y :: ys) ['/'] = true then
        if startsWithL ('/' :: y :: ys) ['/', '/'] = true ∧
            ¬ startsWithL ('/' :: y :: ys) ['/', '/', '/'] = true then 2 else 1
      else 0) = 1 := by
    rw [hsw2]
    simp [startsWithL]
  simp only [hinit]
  rw [splitCh_cons_self, splitCh_of_not_contains _ _ hall,
    npLoop_empty_comp, npLoop_push _ _ _ _ (by simp) h1 h2, npLoop_nil]
  simp [joinCh]

/-- Cutting at the first `?` and `#` (in either order) removes an
appended query-or-fragment suffix and keeps a clean path intact. -/
theorem cut_query_fragment (a qfl : List Char)
    (hq : containsL '?' a = false) (hh : containsL '#' a = false)
    (hcase : qfl = [] ∨ (∃ r, qfl = '?' :: r) ∨ (∃ r, qfl = '#' :: r)) :
    takeUntil '#' (takeUntil '?' (a ++ qfl)) = a ∧
    takeUntil '?' (takeUntil '#' (a ++ qfl)) = a := by
  rcases hcase with rfl | ⟨r, rfl⟩ | ⟨r, rfl⟩
  · rw [List.append_nil, takeUntil_of_not_contains _ _ hq,
      takeUntil_of_not_contains _ _ hh, takeUntil_of_not_contains _ _ hq]
    exact ⟨rfl, rfl⟩
  · constructor
    · rw [takeUntil_append _ _ _ hq, takeUntil_cons_self, List.append_nil,
        takeUntil_of_not_contains _ _ hh]
    · rw [takeUntil_append _ _ _ hh, takeUntil_cons_ne _ _ _ (by decide),
        takeUntil_append _ _ _ hq, takeUntil_cons_self, List.append_nil]
  · constructor
    · rw [takeUntil_append _ _ _ hq, takeUntil_cons_ne _ _ _ (by decide),
        takeUntil_append _ _ _ hh, takeUntil_cons_self, List.append_nil]
    · rw [takeUntil_append _ _ _ hh, takeUntil_cons_self, List.append_nil,
        takeUntil_of_not_contains _ _ hq]

/-! ## C6: percent-decoding, query stripping and the params split -/

/-- C6 counterexample: for the request `/file;v=1.js` the program's
fallback candidate is `/B/file` — `urlparse` drops the `;v=1.js`
RFC 1808 parameters from the last segment before the handler decodes
and joins — and not the decoded, slash-stripped relative path
`file;v=1.js` joined to the fallback root, which the claim as stated
requires. -/
theorem c6_counterexample_params_split :
    fallbackPath "/B" "/file;v=1.js" = "/B/file" ∧
    unquote "file;v=1.js" = "file;v=1.js" ∧
    fallbackPath "/B" "/file;v=1.js" ≠ osJoin "/B" "file;v=1.js" :=
  ⟨by decide, by decide, by decide⟩

/-- C6 (amended): for a request `/nseg ++ ps` — an encoded last segment
`nseg` with optional raw RFC 1808 parameters `ps` (`;...`), optionally
followed by a query string or fragment — where `nseg ++ ps` decodes to
`dseg` and `nseg` alone decodes to `dname`, the primary resolution
strips the query/fragment, decodes, and maps the request to `dseg`
under the serving root (parameters are kept there), while the fallback
candidate also drops the parameters and joins the decoded,
slash-stripped `dname` under the fallback root.  The `repl`-freeness
hypothesis keeps the statement on the domain where the modelled
`errors='replace'` decoding agrees with the
`errors='surrogatepass'`-first decoding of `http.server` (they differ
only on escapes of surrogate code points, which Lean characters cannot
represent). -/
theorem c6_percent_decoding (root fb nseg ps dseg dname qf : String)
    (hdec : unquoteL (nseg ++ ps).toList = dseg.toList)
    (hdecn : unquoteL nseg.toList = dname.toList)
    (hq : containsL '?' (nseg ++ ps).toList = false)
    (hh : containsL '#' (nseg ++ ps).toList = false)
    (hs : containsL '/' (nseg ++ ps).toList = false)
    (hw : ∀ c ∈ (nseg ++ ps).toList, isPyWs c = false)
    (hne : nseg.toList ≠ [])
    (hsemi : containsL ';' nseg.toList = false)
    (hps : ps = "" ∨ (∃ r : String, ps = ";" ++ r))
    (hqf : qf = "" ∨ (∃ r : String, qf = "?" ++ r) ∨ (∃ r : String, qf = "#" ++ r))
    (hdne : dseg.toList ≠ [])
    (hds : containsL '/' dseg.toList = false)
    (hdot1 : dseg.toList ≠ ['.'])
    (hdot2 : dseg.toList ≠ ['.', '.'])
    (hffd : containsL repl dseg.toList = false)
    (hdns : containsL '/' dname.toList = false) :
    baseTranslatePath root ("/" ++ (nseg ++ ps) ++ qf) = osJoin root dseg ∧
    fallbackPath fb ("/" ++ (nseg ++ ps) ++ qf) = osJoin fb dname := by
  have hflcat : (nseg ++ ps).toList = nseg.toList ++ ps.toList :=
    String.data_append nseg ps
  have hnef : (nseg ++ ps).toList ≠ [] := by
    rw [hflcat]
    intro hcon
    exact hne (List.append_eq_nil.mp hcon).1
  have hfull : ("/" ++ (nseg ++ ps) ++ qf).toList
      = ('/' :: (nseg ++ ps).toList) ++ qf.toList := by
    show (("/" ++ (nseg ++ ps)) ++ qf).data = ('/' :: (nseg ++ ps).data) ++ qf.data
    rw [String.data_append, String.data_append]
    rfl
  have hqa : containsL '?' ('/' :: (nseg ++ ps).toList) = false := by
    rw [containsL_cons, hq]; rfl
  have hha : containsL '#' ('/' :: (nseg ++ ps).toList) = false := by
    rw [containsL_cons, hh]; rfl
  have hcase : qf.toList = [] ∨ (∃ r, qf.toList = '?' :: r) ∨
      (∃ r, qf.toList = '#' :: r) := by
    rcases hqf with rfl | ⟨r, rfl⟩ | ⟨r, rfl⟩
    · exact Or.inl rfl
    · refine Or.inr (Or.inl ⟨r.toList, ?_⟩)
      show ("?" ++ r).data = '?' :: r.data
      rw [String.data_append]
      rfl
    · refine Or.inr (Or.inr ⟨r.toList, ?_⟩)
      show ("#" ++ r).data = '#' :: r.data
      rw [String.data_append]
      rfl
  have hwa : ∀ c ∈ '/' :: (nseg ++ ps).toList, isPyWs c = false := by
    intro c hc
    rcases List.mem_cons.mp hc with rfl | hc'
    · rfl
    · exact hw c hc'
  have hrstrip : rstripWs ('/' :: (nseg ++ ps).toList) = '/' :: (nseg ++ ps).toList :=
    rstripWs_eq_self _ hwa
  obtain ⟨z, zs, hsl⟩ : ∃ z zs, (nseg ++ ps).toList = z :: zs := by
    cases hsl' : (nseg ++ ps).toList with
    | nil => exact absurd hsl' hnef
    | cons z zs => exact ⟨z, zs, rfl⟩
  have hlast : lastIsSlash ('/' :: (nseg ++ ps).toList) = false := by
    rw [hsl, lastIsSlash_cons_cons]
    exact lastIsSlash_of_not_contains _ (hsl ▸ hs)
  have hunq : unquoteL ('/' :: (nseg ++ ps).toList) = '/' :: dseg.toList := by
    rw [unquoteL_cons_ascii _ _ (by decide) (by decide), hdec]
  have hnorm : normpath ('/' :: dseg.toList) = '/' :: dseg.toList :=
    normpath_slash_single _ hdne hds hdot1 hdot2
  constructor
  · have hbase : baseTranslatePathL root.toList
        (('/' :: (nseg ++ ps).toList) ++ qf.toList)
        = osJoinL root.toList dseg.toList := by
      rw [baseTranslatePathL]
      simp only [(cut_query_fragment _ _ hqa hha hcase).1, hrstrip, hlast, hunq,
        hnorm, splitCh_cons_self, splitCh_of_not_contains _ _ hds]
      simp [show dseg.data ≠ [] from hdne, show dseg.data ≠ ['.'] from hdot1,
        show dseg.data ≠ ['.', '.'] from hdot2]
    rw [baseTranslatePath, hfull, osJoin]
    exact congrArg String.mk hbase
  · have hfilter : (('/' :: (nseg ++ ps).toList) ++ qf.toList).filter
        (fun c => !isUrlUnsafe c)
        = ('/' :: (nseg ++ ps).toList) ++ qf.toList.filter (fun c => !isUrlUnsafe c) := by
      rw [List.filter_append, filter_safe_eq_self _ hwa]
    have hcasef : qf.toList.filter (fun c => !isUrlUnsafe c) = [] ∨
        (∃ r, qf.toList.filter (fun c => !isUrlUnsafe c) = '?' :: r) ∨
        (∃ r, qf.toList.filter (fun c => !isUrlUnsafe c) = '#' :: r) := by
      rcases hcase with hq0 | ⟨r, hr⟩ | ⟨r, hr⟩
      · rw [hq0]; exact Or.inl rfl
      · rw [hr]
        refine Or.inr (Or.inl ⟨r.filter (fun c => !isUrlUnsafe c), ?_⟩)
        rw [List.filter_cons,
          if_pos (show (!isUrlUnsafe '?') = true by decide)]
      · rw [hr]
        refine Or.inr (Or.inr ⟨r.filter (fun c => !isUrlUnsafe c), ?_⟩)
        rw [List.filter_cons,
          if_pos (show (!isUrlUnsafe '#') = true by decide)]
    have hnet : startsWithL
        (('/' :: (nseg ++ ps).toList) ++ qf.toList.filter (fun c => !isUrlUnsafe c))
        ['/', '/'] = false := by
      have h1 := startsWithL_single_of_not_contains '/' (nseg ++ ps).toList
        (qf.toList.filter (fun c => !isUrlUnsafe c)) hs hnef
      simp only [List.cons_append, startsWithL]
      simp only [decide_eq_true_eq, true_and, Bool.true_and, decide_True]
      exact h1
    have hslash : containsL '/' nseg.toList = false := by
      rw [hflcat, containsL_append, Bool.or_eq_false_iff] at hs
      exact hs.1
    have hparams : splitparamsL ('/' :: (nseg ++ ps).toList) = '/' :: nseg.toList := by
      rcases hps with rfl | ⟨r, rfl⟩
      · rw [hflcat]
        show splitparamsL ('/' :: (nseg.toList ++ [])) = '/' :: nseg.toList
        rw [List.append_nil]
        refine splitparamsL_no_semi _ ?_
        rw [containsL_cons, hsemi]
        rfl
      · have hpsl : (";" ++ r).toList = ';' :: r.toList := by
          show (";" ++ r).data = ';' :: r.data
          rw [String.data_append]
          rfl
        have hrs : containsL '/' r.toList = false := by
          rw [hflcat, containsL_append, hpsl, containsL_cons,
            Bool.or_eq_false_iff] at hs
          have := hs.2
          rw [Bool.or_eq_false_iff] at this
          exact this.2
        rw [hflcat, hpsl]
        exact splitparamsL_slash_params nseg.toList r.toList hsemi hslash hrs
    have hurl : urlPathL (('/' :: (nseg ++ ps).toList) ++ qf.toList)
        = '/' :: nseg.toList := by
      rw [urlPathL]
      simp only [hfilter, hnet, Bool.false_eq_true, if_false]
      rw [(cut_query_fragment _ _ hqa hha hcasef).2]
      exact hparams
    have hunqn : unquoteL ('/' :: nseg.toList) = '/' :: dname.toList := by
      rw [unquoteL_cons_ascii _ _ (by decide) (by decide), hdecn]
    have hfb : osJoinL fb.toList
        (lstripSlashes (unquoteL (urlPathL (('/' :: (nseg ++ ps).toList) ++ qf.toList))))
        = osJoinL fb.toList dname.toList := by
      rw [hurl, hunqn, lstripSlashes_cons_slash, lstripSlashes_of_not_contains _ hdns]
    rw [fallbackPath, hfull, osJoin]
    exact congrArg String.mk hfb

/-- Witness for the amended C6 at two concrete requests:
`/a%20b.js?v=1` (no parameters) decodes to `a b.js` under both roots,
and `/file;v=1.js` keeps its parameters under the primary root while
the fallback candidate drops them. -/
theorem c6_percent_decoding_witness :
    (baseTranslatePath "/A" ("/" ++ ("a%20b.js" ++ "") ++ "?v=1") = "/A/a b.js" ∧
     fallbackPath "/B" ("/" ++ ("a%20b.js" ++ "") ++ "?v=1") = "/B/a b.js") ∧
    (baseTranslatePath "/A" ("/" ++ ("file" ++ ";v=1.js") ++ "") = "/A/file;v=1.js" ∧
     fallbackPath "/B" ("/" ++ ("file" ++ ";v=1.js") ++ "") = "/B/file") := by
  have h1 := c6_percent_decoding "/A" "/B" "a%20b.js" "" "a b.js" "a b.js" "?v=1"
    (by decide) (by decide) (by decide) (by decide) (by decide) (by decide)
    (by decide) (by decide) (Or.inl rfl) (Or.inr (Or.inl ⟨"v=1", rfl⟩))
    (by decide) (by decide) (by decide) (by decide) (by decide) (by decide)
  have h2 := c6_percent_decoding "/A" "/B" "file" ";v=1.js" "file;v=1.js" "file" ""
    (by decide) (by decide) (by decide) (by decide) (by decide) (by decide)
    (by decide) (by decide) (Or.inr ⟨"v=1.js", rfl⟩) (Or.inl rfl)
    (by decide) (by decide) (by decide) (by decide) (by decide) (by decide)
  exact ⟨⟨h1.1.trans (by decide), h1.2.trans (by decide)⟩,
    ⟨h2.1.trans (by decide), h2.2.trans (by decide)⟩⟩

end GrannySmith
